import Mathlib

/-!
Verification development for the `HappyDevFormatter` terminal-rendering core
of the logxi logging library (source file `v1/happyDevFormatter.go`).

Go strings are embedded as `List Char`; Go's `len` on a string counts UTF-8
bytes, embedded as `golen`.  The formatter's mutable state (output buffer and
column tracker) is embedded as an explicit `St` record threaded through the
write helpers.  External collaborators that live outside the provided source
(the canonical JSON encoder `LogEntry`, the reserved key registry, the level
constants, the `ansi` style resolver and the callstack library) are modelled
from the specification; each such definition carries a doc comment saying so.
-/

namespace Logxi

/-- A Go string, embedded as its sequence of runes (Unicode scalar values). -/
abbrev GoStr := List Char

/-- Embed a Lean string literal as a Go string. -/
def gs (s : String) : GoStr := s.data

/-- Number of UTF-8 bytes of one rune, as Go's `len` counts them. -/
def charBytes (c : Char) : Nat :=
  if c.toNat < 0x80 then 1
  else if c.toNat < 0x800 then 2
  else if c.toNat < 0x10000 then 3
  else 4

/-- Go's `len` on a string: total UTF-8 byte count. -/
def golen (s : GoStr) : Nat := (s.map charBytes).sum

/-- Is the rune a newline or a space (the cutset of `strings.Trim(value, "\n ")`)? -/
def isNlSp (c : Char) : Bool := c = '\n' || c = ' '

/-- Go `strings.Trim(s, "\n ")`: strip leading and trailing newlines/spaces. -/
def trimNlSp (s : GoStr) : GoStr :=
  ((s.dropWhile isNlSp).reverse.dropWhile isNlSp).reverse

/-- Go `strings.Split` for a single-rune separator (the separators used by
`parseKVList` are `","` and `"="`).  Mirrors Go: the result is never empty and
keeps empty segments. -/
def splitOnChar (c : Char) : GoStr → List GoStr
  | [] => [[]]
  | x :: rest =>
    if x = c then [] :: splitOnChar c rest
    else
      match splitOnChar c rest with
      | [] => [[x]]
      | r :: rs => (x :: r) :: rs

/-- Go map insertion (later insertions win on lookup). -/
def mset (m : List (GoStr × GoStr)) (k v : GoStr) : List (GoStr × GoStr) :=
  (k, v) :: m

/-- Go map lookup with the zero value `""` for a missing key. -/
def mget (m : List (GoStr × GoStr)) (k : GoStr) : GoStr :=
  match m.find? (fun p => p.1 == k) with
  | some p => p.2
  | none => []

/-- Number of positions where `pat` occurs as a substring of `s`. -/
def countSub : GoStr → GoStr → Nat
  | [], pat => if pat.isEmpty then 1 else 0
  | s@(_ :: rest), pat => (if pat.isPrefixOf s then 1 else 0) + countSub rest pat

/-- Remainder of `s` after the first occurrence of `pat`, if any. -/
def subAfter (pat : GoStr) : GoStr → Option GoStr
  | [] => if pat.isPrefixOf ([] : GoStr) then some [] else none
  | s@(_ :: rest) =>
    if pat.isPrefixOf s then some (s.drop pat.length) else subAfter pat rest

/-- Do the patterns all occur in `s`, in the given order (each search resuming
after the previous match)? -/
def orderedSub (s : GoStr) : List GoStr → Bool
  | [] => true
  | p :: ps =>
    match subAfter p s with
    | none => false
    | some rest => orderedSub rest ps

/-- Number of characters after the last line break of `s` (all of `s` if it has
no line break). -/
def charsSinceLastNl (s : GoStr) : Nat :=
  (s.reverse.takeWhile (fun c => c != '\n')).length

/-! ### External constants and the reserved-key registry -/

/-- The `ansi.Reset` escape sequence of the `mgutz/ansi` dependency, written
directly to the buffer by the formatter (the spec's reset/no-op style). -/
def ansiReset : GoStr := gs "\x1b[0m"

/-- Modelled from the spec: the reserved single-rune key for the timestamp
field of the canonical encoding (key constants live in `logger.go`, outside
the provided source). -/
def timeKey : GoStr := ['t']

/-- Modelled from the spec: the reserved single-rune key for the level field. -/
def levelKey : GoStr := ['l']

/-- Modelled from the spec: the reserved single-rune key for the logger name. -/
def nameKey : GoStr := ['n']

/-- Modelled from the spec: the reserved single-rune key for the message. -/
def messageKey : GoStr := ['m']

/-- Modelled from the spec: the reserved-key registry, a fixed set of
single-character keys used internally for time/level/name/message. -/
def reservedKeys : List GoStr := [timeKey, levelKey, nameKey, messageKey]

/-- Modelled from the spec: the sentinel field name for imbalanced key/value
argument lists (the repository's README shows `IMBALANCED_PAIRS=>`). -/
def imbalancedKey : GoStr := gs "IMBALANCED_PAIRS"

/-- Modelled from the spec: `badKeyAtIndex` lives in `logger.go`, outside the
provided source; only the fact that it yields a placeholder key naming the
offending positional index is used. -/
def badKeyAtIndex (i : Nat) : GoStr := gs ("BAD_KEY_AT_INDEX_" ++ toString i)

/-- Modelled from the spec: integer level constants from `logger.go` (outside
the provided source).  Only the identity of the four named levels matters to
the formatter's `switch`. -/
def LevelDebug : Int := 8

/-- Modelled from the spec: the info level constant. -/
def LevelInfo : Int := 7

/-- Modelled from the spec: the warn level constant. -/
def LevelWarn : Int := 5

/-- Modelled from the spec: the error level constant. -/
def LevelError : Int := 4

/-- Modelled from the spec: the fatal level constant. -/
def LevelFatal : Int := 2

/-- Modelled from the spec: the abbreviation the canonical encoder stores under
the level key (`DBG`, `INF`, `WRN`, `ERR` per the spec's theme slots). -/
def levelAbbrev (level : Int) : GoStr :=
  if level = LevelDebug then gs "DBG"
  else if level = LevelInfo then gs "INF"
  else if level = LevelWarn then gs "WRN"
  else if level = LevelError then gs "ERR"
  else if level = LevelFatal then gs "FTL"
  else gs "LVL"

/-! ### Go's JSON string quoting

`encoding/json.Marshal` applied to a Go string value: the string is wrapped in
double quotes and the characters `"`, `\`, control characters below U+0020,
the HTML-sensitive `<`, `>`, `&`, and U+2028/U+2029 are escaped; every other
rune passes through unchanged.  `Marshal` never fails on a string value, so
the error return is not modelled. -/

/-- Does Go's JSON string encoder escape this rune? -/
def needsEscape (c : Char) : Bool :=
  c.toNat < 0x20 || c = '"' || c = '\\' || c = '<' || c = '>' || c = '&' ||
    c.toNat = 0x2028 || c.toNat = 0x2029

/-- Lower-case hexadecimal digit for `n < 16`. -/
def hexDigit (n : Nat) : Char :=
  if n < 10 then Char.ofNat (48 + n) else Char.ofNat (87 + n)

/-- The escape sequence Go's JSON encoder emits for an escaped rune. -/
def escChar (c : Char) : GoStr :=
  if c = '"' then ['\\', '"']
  else if c = '\\' then ['\\', '\\']
  else if c = '\n' then ['\\', 'n']
  else if c = '\r' then ['\\', 'r']
  else if c = '\t' then ['\\', 't']
  else ['\\', 'u', hexDigit (c.toNat / 4096 % 16), hexDigit (c.toNat / 256 % 16),
        hexDigit (c.toNat / 16 % 16), hexDigit (c.toNat % 16)]

/-- How the JSON encoder renders one rune of a string. -/
def encRune (c : Char) : GoStr := if needsEscape c then escChar c else [c]

/-- `string(b)` for `b, _ := json.Marshal(key)` with `key` a Go string. -/
def jsonQuote (s : GoStr) : GoStr := '"' :: (s.map encRune).flatten ++ ['"']

/-! ### Values and the data model -/

/-- A Go `interface{}` value as the formatter can observe it: a string, an
integer, an error-like object (carrying its message and its captured stack
trace, which in Go is materialised by `errors.Wrap`), the nil interface, or
any other value together with its `fmt.Sprintf("%v", ·)` rendering. -/
inductive GoVal where
  | str (s : GoStr)
  | int (n : Int)
  | err (msg stk : GoStr)
  | nil
  | other (repr : GoStr)
deriving DecidableEq

/-- `fmt.Sprintf("%v", v)`.  For an error value `%v` prints `Error()`, i.e. the
message (the formatter intercepts error values before ever printing them this
way). -/
def sprint : GoVal → GoStr
  | .str s => s
  | .int n => gs (toString n)
  | .err m _ => m
  | .nil => gs "<nil>"
  | .other r => r

/-- `fmt.Sprintf("%v", args)` for a `[]interface{}` slice. -/
def sprintSlice (args : List GoVal) : GoStr :=
  '[' :: (List.intercalate [' '] (args.map sprint)) ++ [']']

/-- The color theme record (`colorScheme` in the source): eight named slots. -/
structure ColorScheme where
  key : GoStr
  value : GoStr
  misc : GoStr
  source : GoStr
  debug : GoStr
  info : GoStr
  warn : GoStr
  error : GoStr
deriving DecidableEq

/-- A stack frame of the live call stack, identified abstractly. -/
abbrev Frame := Nat

/-- The static configuration a render call reads: the package-level `isPretty`,
`maxCol`, `indent` and `Separator` values, the parsed theme, and the live call
stack together with the frame-formatting capability of the callstack library
(`newCallstackInfo(frame, -1).String(warnColor, sourceColor)` for the warn
path and `newCallstackInfo(frame, contextLines).String(errColor, sourceColor)`
for the error path, both external to the provided source and therefore kept
abstract). -/
structure Config where
  isPretty : Bool
  maxCol : Nat
  indent : GoStr
  separator : GoStr
  theme : ColorScheme
  trace : List Frame
  warnCtx : Frame → GoStr
  errCtx : Frame → GoStr

/-- The assignment token written after a key (`assignmentChar` in the source). -/
def assignmentChar : GoStr := gs ": "

/-- The formatter's mutable render state: output buffer and column tracker. -/
structure St where
  buf : GoStr
  col : Nat
deriving DecidableEq

/-- `HappyDevFormatter.writeString`: append to the buffer and advance the
column tracker by the byte length (raw strings only, never escape codes). -/
def writeString (st : St) (s : GoStr) : St :=
  { buf := st.buf ++ s, col := st.col + golen s }

/-- A direct `buf.WriteString` that bypasses the column tracker (used for ANSI
escape sequences and the trailing context block). -/
def rawWrite (st : St) (s : GoStr) : St :=
  { st with buf := st.buf ++ s }

/-- `HappyDevFormatter.writeKey`: separator, then (for a non-empty key) the key
colored with the theme's key slot and followed by the assignment token. -/
def writeKey (cfg : Config) (st : St) (key : GoStr) : St :=
  let st1 := writeString st cfg.separator
  if key = [] then st1
  else
    let st2 := rawWrite st1 cfg.theme.key
    let st3 := writeString st2 key
    let st4 := writeString st3 assignmentChar
    rawWrite st4 ansiReset

/-- `HappyDevFormatter.offset`: trim the value, decide wrapping against the
column budget before writing, then write key and value (the value inside the
field color when one is given). -/
def offset (cfg : Config) (st : St) (color key value : GoStr) : St :=
  let val := trimNlSp value
  let st1 :=
    if (cfg.isPretty ∧ key ≠ []) ∨ st.col + golen key + 1 + golen val ≥ cfg.maxCol then
      let a := rawWrite st (gs "\n")
      let b : St := { buf := a.buf, col := 0 }
      writeString b cfg.indent
    else st
  let st2 := writeKey cfg st1 key
  let st3 := if color ≠ [] then rawWrite st2 color else st2
  let st4 := writeString st3 val
  if color ≠ [] then rawWrite st4 ansiReset else st4

/-- The write phase of `offset` in isolation (everything after the wrapping
decision), used to state the wrap-characterisation theorem. -/
def offsetWrite (cfg : Config) (st : St) (color key val : GoStr) : St :=
  let st2 := writeKey cfg st key
  let st3 := if color ≠ [] then rawWrite st2 color else st2
  let st4 := writeString st3 val
  if color ≠ [] then rawWrite st4 ansiReset else st4

/-- `HappyDevFormatter.writeError`: an error value is rendered as its message,
a newline, and its captured stack trace, in the theme's error color, through
`offset`. -/
def writeError (cfg : Config) (st : St) (key msg stk : GoStr) : St :=
  offset cfg st cfg.theme.error key (msg ++ '\n' :: stk)

/-- `HappyDevFormatter.set`: error-like values (both plain `error` values,
wrapped on the spot, and already-wrapped `*errors.Error` values) bypass the
generic value writer; anything else goes through `offset` with its
`fmt.Sprintf("%v", ·)` rendering. -/
def set (cfg : Config) (st : St) (key : GoStr) (value : GoVal) (color : GoStr) : St :=
  match value with
  | .err m stk => writeError cfg st key m stk
  | v => offset cfg st color key (sprint v)

/-! ### Theme parsing -/

/-- `parseKVList`: split on the separator, drop empty pairs, split each pair on
`=`; a bare name records an empty style, a `name=style` pair records the
style, anything else is ignored.  The dead `len(pairs) == 0` guard of the
source is kept. -/
def parseKVList (s : GoStr) (separator : Char) : List (GoStr × GoStr) :=
  let pairs := splitOnChar separator s
  if pairs = [] then []
  else
    pairs.foldl
      (fun m pair =>
        if pair = [] then m
        else
          match splitOnChar '=' pair with
          | [k] => mset m k []
          | [k, v] => mset m k v
          | _ => m)
      []

/-- `parseTheme`: resolve each slot's style through the capability resolver
`colorCode` (the external `ansi.ColorCode`, kept abstract per the spec),
falling back to the wildcard entry; a non-reset wildcard first seeds every
slot.  The closure's mutated `wildcard` variable is made explicit: the first
call resolves `*` with the zero-value fallback `""`. -/
def parseTheme (colorCode : GoStr → GoStr) (themeSpec : GoStr) : ColorScheme :=
  let m := parseKVList themeSpec ','
  let color := fun (wildcard : GoStr) (key : GoStr) =>
    let style := mget m key
    let c := colorCode style
    if c = [] then wildcard else c
  let wildcard := color [] (gs "*")
  let cs : ColorScheme := ⟨[], [], [], [], [], [], [], []⟩
  let cs :=
    if wildcard ≠ ansiReset then
      { cs with
        key := wildcard
        value := wildcard
        misc := wildcard
        source := wildcard
        debug := wildcard
        warn := wildcard
        info := wildcard
        error := wildcard }
    else cs
  { cs with
    key := color wildcard (gs "key")
    value := color wildcard (gs "value")
    misc := color wildcard (gs "misc")
    source := color wildcard (gs "source")
    debug := color wildcard (gs "DBG")
    warn := color wildcard (gs "WRN")
    info := color wildcard (gs "INF")
    error := color wildcard (gs "ERR") }

/-! ### Callsite resolution -/

/-- The warn branch of `getLevelContext`: walk the enumerated trace, `continue`
below index 4, format the first remaining frame and `break`. -/
def warnLoop (wc : Frame → GoStr) : Nat → List Frame → GoStr
  | _, [] => []
  | i, f :: fs => if i < 4 then warnLoop wc (i + 1) fs else wc f

/-- The error/fatal branch of `getLevelContext`: walk the enumerated trace,
`continue` below index 3, skip frames whose formatted context is empty, and
append each non-empty context followed by a newline. -/
def errLoop (ec : Frame → GoStr) : Nat → List Frame → GoStr
  | _, [] => []
  | i, f :: fs =>
    if i < 3 then errLoop ec (i + 1) fs
    else
      let ctx := ec f
      if ctx = [] then errLoop ec (i + 1) fs
      else ctx ++ '\n' :: errLoop ec (i + 1) fs

/-- `HappyDevFormatter.getLevelContext`: debug/info yield no context; warn and
the default (error/fatal) branch walk the stack as above. -/
def getLevelContext (cfg : Config) (level : Int) : GoStr × GoStr :=
  if level = LevelDebug then ([], cfg.theme.debug)
  else if level = LevelInfo then ([], cfg.theme.info)
  else if level = LevelWarn then (warnLoop cfg.warnCtx 0 cfg.trace, cfg.theme.warn)
  else (errLoop cfg.errCtx 0 cfg.trace, cfg.theme.error)

/-! ### Key validation and the render order -/

/-- Modelled from the spec: `isReservedKey` (in `logger.go`, outside the
provided source) fails on a non-string key and otherwise reports membership in
the reserved-key registry. -/
def isReservedKey (v : GoVal) : Except Unit Bool :=
  match v with
  | .str s => .ok (reservedKeys.contains s)
  | _ => .error ()

/-- How a render call halts: `InternalLog.Fatal` on a reserved key, or the
`panic` on a key whose JSON quoting is not trivial. -/
inductive Halt where
  | fatalKey (k : GoStr)
  | complexKey (k : GoStr)
deriving DecidableEq

/-- The validation loop at the top of `Format` (`for i := 0; i < len(args);
i += 2`): a non-string key yields a non-fatal internal diagnostic naming its
index and the walk continues; a reserved key is fatal; any other key must
round-trip through JSON quoting unchanged or the call panics.  The `ok` result
collects the diagnosed indices. -/
def validateStep (i : Nat) (a : GoVal) (next : Except Halt (List Nat)) :
    Except Halt (List Nat) :=
  match a with
  | .str s =>
    if reservedKeys.contains s then .error (.fatalKey s)
    else if jsonQuote s = '"' :: s ++ ['"'] then next
    else .error (.complexKey s)
  | _ => next.map (fun ds => i :: ds)

/-- The validation loop proper; the step at index `i` continues at `i + 2`,
skipping the value slot. -/
def validate : Nat → List GoVal → Except Halt (List Nat)
  | _, [] => .ok []
  | i, [a] => validateStep i a (validate (i + 2) [])
  | i, a :: _ :: rest => validateStep i a (validate (i + 2) rest)

/-- The order-preserving key list of `Format` (lines 287–298): walk the args
two at a time, `continue` when the trailing key has no value, and record
either the string key or the placeholder for a non-string key. -/
def renderOrder : Nat → List GoVal → List GoStr
  | _, [] => []
  | _, [_] => []
  | i, k :: _ :: rest =>
    (match k with
     | .str s => s
     | _ => badKeyAtIndex i) :: renderOrder (i + 2) rest

/-! ### The canonical encoder, modelled from the spec -/

/-- The user-field bindings of the canonical encoding for an even-length
argument list: string keys bind their values, non-string keys bind under the
index placeholder. -/
def userFields : Nat → List GoVal → List (GoStr × GoVal)
  | _, [] => []
  | _, [_] => []
  | i, k :: v :: rest =>
    ((match k with
      | .str s => s
      | _ => badKeyAtIndex i), v) :: userFields (i + 2) rest

/-- Modelled from the spec: `jsonFormatter.LogEntry` (the CanonicalEncoder,
outside the provided source) produces a field mapping always containing the
timestamp, level abbreviation, logger name and message under their reserved
keys, plus every validated user key; an odd-length argument list is
represented by the imbalance sentinel field instead of user fields.  A missing
key yields the nil interface, as a Go map lookup does; on duplicate keys the
last wins, as JSON unmarshalling does. -/
def logEntry (ts name : GoStr) (level : Int) (msg : GoStr) (args : List GoVal)
    (k : GoStr) : GoVal :=
  if k = timeKey then .str ts
  else if k = levelKey then .str (levelAbbrev level)
  else if k = nameKey then .str name
  else if k = messageKey then .str msg
  else if args.length % 2 = 1 then
    if k = imbalancedKey then .str (sprintSlice args) else .nil
  else
    match (userFields 0 args).reverse.find? (fun p => p.1 == k) with
    | some p => p.2
    | none => .nil

/-- `entry[...].(string)`: the Go type assertion.  `logEntry` always stores a
string under the asserted keys, so the panicking branch is unreachable and
collapses to the empty string. -/
def asString : GoVal → GoStr
  | .str s => s
  | _ => []

/-! ### Format -/

/-- The user-field render loop of `Format` (lines 300–309): reserved keys are
skipped (`isReservedKey` on a string never fails, so the source's defensive
`panic` branch is unreachable and keeps the state unchanged); every other key
is rendered with the theme's value color. -/
def renderFields (cfg : Config) (entry : GoStr → GoVal) : St → List GoStr → St
  | st, [] => st
  | st, k :: rest =>
    match isReservedKey (.str k) with
    | .error _ => st
    | .ok true => renderFields cfg entry st rest
    | .ok false => renderFields cfg entry (set cfg st k (entry k) cfg.theme.value) rest

/-- The render state of `Format` just before the context block: timestamp in
the misc color, then level abbreviation, logger name and message as keyless
fields, then the user fields in call order. -/
def formatPre (cfg : Config) (ts name : GoStr) (level : Int) (msg : GoStr)
    (args : List GoVal) : St :=
  let entry := logEntry ts name level msg args
  let st0 : St := ⟨[], 0⟩
  let st1 := rawWrite st0 cfg.theme.misc
  let st2 := writeString st1 (asString (entry timeKey))
  let st3 := rawWrite st2 ansiReset
  let color := (getLevelContext cfg level).2
  let st4 := set cfg st3 [] (.str (asString (entry levelKey))) color
  let st5 := set cfg st4 [] (entry nameKey) cfg.theme.misc
  let st6 := set cfg st5 [] (entry messageKey) color
  renderFields cfg entry st6 (renderOrder 0 args)

/-- The rendering body of `Format` after validation succeeds: the record
fields, then the callsite context block (its own line, level-colored,
newline-terminated when the context itself is not) or a plain terminating
newline. -/
def formatBody (cfg : Config) (ts name : GoStr) (level : Int) (msg : GoStr)
    (args : List GoVal) : GoStr :=
  let st7 := formatPre cfg ts name level msg args
  let lc := getLevelContext cfg level
  if lc.1 ≠ [] then
    st7.buf ++ '\n' :: lc.2 ++ lc.1 ++ ansiReset ++
      (if lc.1.getLast? ≠ some '\n' then ['\n'] else [])
  else st7.buf ++ ['\n']

/-- The outcome of one `Format` call: a halt (process-fatal reserved-key error
or panic) or the rendered record together with the diagnosed bad-key indices. -/
inductive Res where
  | halted (h : Halt)
  | ok (diags : List Nat) (out : GoStr)
deriving DecidableEq

/-- `HappyDevFormatter.Format`: validate the keys, then render through the
canonical encoding. -/
def format (cfg : Config) (ts name : GoStr) (level : Int) (msg : GoStr)
    (args : List GoVal) : Res :=
  match validate 0 args with
  | .error h => .halted h
  | .ok diags => .ok diags (formatBody cfg ts name level msg args)

/-- The rendered bytes of an outcome (empty when the call halted). -/
def outOf : Res → GoStr
  | .halted _ => []
  | .ok _ o => o

/-- Did the call render (as opposed to halting)? -/
def Res.isOk : Res → Bool
  | .halted _ => false
  | .ok _ _ => true

/-! ### Helper lemmas on lists and trimming -/

/-- The last element of a nonempty right factor is the last of the append. -/
theorem getLast?_append_right (a : GoStr) {b : GoStr} (hb : b ≠ []) :
    (a ++ b).getLast? = b.getLast? :=
  List.getLast?_append_of_ne_nil a hb

/-- The last element of a reversed list is its head. -/
theorem getLast?_reverse_eq_head? (l : GoStr) : l.reverse.getLast? = l.head? := by
  cases l with
  | nil => rfl
  | cons a t =>
    rw [List.reverse_cons, getLast?_append_right t.reverse (by simp)]
    rfl

/-- The head surviving a `dropWhile` fails the predicate. -/
theorem head?_dropWhile_not (p : Char → Bool) :
    ∀ (l : GoStr) (c : Char), (l.dropWhile p).head? = some c → p c = false := by
  intro l
  induction l with
  | nil => intro c h; simp [List.dropWhile] at h
  | cons a t ih =>
    intro c h
    by_cases hp : p a
    · rw [List.dropWhile_cons_of_pos hp] at h
      exact ih c h
    · rw [List.dropWhile_cons_of_neg hp] at h
      simp at h
      subst h
      simpa using hp

/-- A list whose head fails the predicate is untouched by `dropWhile`. -/
theorem dropWhile_of_head_not (p : Char → Bool) (l : GoStr) (c : Char)
    (hh : l.head? = some c) (hc : p c = false) : l.dropWhile p = l := by
  cases l with
  | nil => rfl
  | cons a t =>
    simp at hh
    subst hh
    simp [List.dropWhile, hc]

/-- `dropWhile` removes a prefix, so a nonempty result keeps the last element. -/
theorem getLast?_dropWhile (p : Char → Bool) :
    ∀ l : GoStr, l.dropWhile p ≠ [] → (l.dropWhile p).getLast? = l.getLast? := by
  intro l
  induction l with
  | nil => intro h; simp [List.dropWhile] at h
  | cons a t ih =>
    intro h
    by_cases hp : p a
    · rw [List.dropWhile_cons_of_pos hp] at h ⊢
      rcases ht : t with _ | ⟨b, t'⟩
      · subst ht; simp [List.dropWhile] at h
      · subst ht
        rw [ih h, List.getLast?_cons_cons]
    · rw [List.dropWhile_cons_of_neg hp]

/-- A nonempty trimmed value does not end in a newline or space. -/
theorem trim_getLast_not (v : GoStr) (c : Char)
    (h : (trimNlSp v).getLast? = some c) : isNlSp c = false := by
  unfold trimNlSp at h
  rw [getLast?_reverse_eq_head?] at h
  exact head?_dropWhile_not isNlSp _ c h

/-- A nonempty trimmed value does not start with a newline or space. -/
theorem trim_head_not (v : GoStr) (c : Char)
    (h : (trimNlSp v).head? = some c) : isNlSp c = false := by
  unfold trimNlSp at h
  rw [List.head?_reverse] at h
  have hne : (v.dropWhile isNlSp).reverse.dropWhile isNlSp ≠ [] := by
    intro he
    rw [he] at h
    simp at h
  rw [getLast?_dropWhile isNlSp _ hne, getLast?_reverse_eq_head?] at h
  exact head?_dropWhile_not isNlSp _ c h

/-- Trimming is idempotent. -/
theorem trimNlSp_idem (v : GoStr) : trimNlSp (trimNlSp v) = trimNlSp v := by
  rcases hh : (trimNlSp v).head? with _ | c
  · have : trimNlSp v = [] := by
      cases h : trimNlSp v
      · rfl
      · rw [h] at hh; simp at hh
    rw [this]
    rfl
  · have h1 : (trimNlSp v).dropWhile isNlSp = trimNlSp v :=
      dropWhile_of_head_not isNlSp _ c hh (trim_head_not v c hh)
    show ((((trimNlSp v).dropWhile isNlSp).reverse.dropWhile isNlSp)).reverse = trimNlSp v
    rw [h1]
    rcases hl : (trimNlSp v).reverse.head? with _ | d
    · have : (trimNlSp v).reverse = [] := by
        cases h : (trimNlSp v).reverse
        · rfl
        · rw [h] at hl; simp at hl
      rw [this]
      simp at this ⊢
      exact this
    · rw [List.head?_reverse] at hl
      have h2 : (trimNlSp v).reverse.dropWhile isNlSp = (trimNlSp v).reverse := by
        refine dropWhile_of_head_not isNlSp _ d ?_ (trim_getLast_not v d hl)
        rw [List.head?_reverse]
        exact hl
      rw [h2, List.reverse_reverse]

/-! ### The buffer never ends in a newline before the record terminator -/

/-- A buffer that is nonempty and does not end in a line break. -/
def GoodEnd (s : GoStr) : Prop := s ≠ [] ∧ s.getLast? ≠ some '\n'

/-- Appending a `GoodEnd` tail gives a `GoodEnd` buffer. -/
theorem goodEnd_append (a : GoStr) {b : GoStr} (h : GoodEnd b) : GoodEnd (a ++ b) := by
  refine ⟨by simp [h.1], ?_⟩
  rw [getLast?_append_right a h.1]
  exact h.2

/-- The ANSI reset sequence ends in `m`. -/
theorem ansiReset_goodEnd : GoodEnd ansiReset := by
  constructor <;> decide

/-- A nonempty trimmed value is a `GoodEnd` tail. -/
theorem trim_goodEnd (v : GoStr) (h : trimNlSp v ≠ []) : GoodEnd (trimNlSp v) := by
  refine ⟨h, fun hc => ?_⟩
  have := trim_getLast_not v '\n' hc
  simp [isNlSp] at this

/-- `writeKey` leaves the buffer ending in the separator (empty key) or in the
ANSI reset (non-empty key). -/
theorem writeKey_goodEnd (cfg : Config) (st : St) (k : GoStr)
    (hs : GoodEnd cfg.separator) : GoodEnd ((writeKey cfg st k).buf) := by
  unfold writeKey writeString rawWrite
  by_cases hk : k = []
  · simp only [hk, if_pos rfl]
    exact goodEnd_append st.buf hs
  · simp only [if_neg hk]
    exact goodEnd_append _ ansiReset_goodEnd

/-- The wrapping condition of `offset`, read off the entry state before
anything is written. -/
def wrapCond (cfg : Config) (st : St) (key val : GoStr) : Prop :=
  (cfg.isPretty ∧ key ≠ []) ∨ st.col + golen key + 1 + golen val ≥ cfg.maxCol

instance (cfg : Config) (st : St) (key val : GoStr) :
    Decidable (wrapCond cfg st key val) := by
  unfold wrapCond
  infer_instance

/-- `offset` decomposes into the wrapping decision followed by the write
phase: the decision compares the entry cursor plus the candidate lengths
against the column budget before anything is written, and a wrap leaves the
cursor at the indent's length. -/
theorem offset_eq (cfg : Config) (st : St) (c k v : GoStr) :
    offset cfg st c k v =
      offsetWrite cfg
        (if wrapCond cfg st k (trimNlSp v) then
          { buf := st.buf ++ '\n' :: cfg.indent, col := golen cfg.indent }
        else st)
        c k (trimNlSp v) := by
  simp only [offset, offsetWrite, wrapCond]
  have hst : writeString { buf := (rawWrite st (gs "\n")).buf, col := 0 } cfg.indent =
      { buf := st.buf ++ '\n' :: cfg.indent, col := golen cfg.indent } := by
    simp only [writeString, rawWrite]
    have hgs : gs "\n" = ['\n'] := rfl
    rw [hgs, List.append_assoc, Nat.zero_add]
    rfl
  rw [hst]

/-- After the write phase the buffer is nonempty and does not end in a line
break, provided the separator is and the value is trimmed. -/
theorem offsetWrite_goodEnd (cfg : Config) (st : St) (c k val : GoStr)
    (hs : GoodEnd cfg.separator) (hval : val ≠ [] → GoodEnd val) :
    GoodEnd ((offsetWrite cfg st c k val).buf) := by
  unfold offsetWrite
  by_cases hc : c = []
  · subst hc
    simp only [ne_eq, not_true_eq_false, if_false, ite_false]
    by_cases hv : val = []
    · subst hv
      show GoodEnd ((writeString (writeKey cfg st k) []).buf)
      unfold writeString
      simp only [List.append_nil]
      exact writeKey_goodEnd cfg st k hs
    · show GoodEnd ((writeString (writeKey cfg st k) val).buf)
      exact goodEnd_append _ (hval hv)
  · simp only [ne_eq, hc, not_false_iff, if_true, ite_true]
    exact goodEnd_append _ ansiReset_goodEnd

/-- After `offset` the buffer is nonempty and does not end in a line break. -/
theorem offset_goodEnd (cfg : Config) (st : St) (c k v : GoStr)
    (hs : GoodEnd cfg.separator) : GoodEnd ((offset cfg st c k v).buf) := by
  rw [offset_eq]
  exact offsetWrite_goodEnd cfg _ c k (trimNlSp v) hs (trim_goodEnd v)

/-- After `set` the buffer is nonempty and does not end in a line break. -/
theorem set_goodEnd (cfg : Config) (st : St) (k : GoStr) (v : GoVal) (c : GoStr)
    (hs : GoodEnd cfg.separator) : GoodEnd ((set cfg st k v c).buf) := by
  cases v <;> simp only [set, writeError] <;> exact offset_goodEnd cfg _ _ _ _ hs

/-- The user-field render loop preserves the buffer-ending invariant. -/
theorem renderFields_goodEnd (cfg : Config) (entry : GoStr → GoVal)
    (hs : GoodEnd cfg.separator) :
    ∀ (ord : List GoStr) (st : St), GoodEnd st.buf →
      GoodEnd ((renderFields cfg entry st ord).buf) := by
  intro ord
  induction ord with
  | nil => intro st h; exact h
  | cons k rest ih =>
    intro st h
    show GoodEnd ((match isReservedKey (.str k) with
      | .error _ => st
      | .ok true => renderFields cfg entry st rest
      | .ok false => renderFields cfg entry (set cfg st k (entry k) cfg.theme.value) rest).buf)
    unfold isReservedKey
    by_cases hr : reservedKeys.contains k
    · simp only [hr]
      exact ih st h
    · simp only [Bool.of_not_eq_true hr]
      exact ih _ (set_goodEnd cfg st k (entry k) cfg.theme.value hs)

/-- The buffer of the pre-context render state is nonempty and does not end in
a line break. -/
theorem formatPre_goodEnd (cfg : Config) (ts name : GoStr) (level : Int)
    (msg : GoStr) (args : List GoVal) (hs : GoodEnd cfg.separator) :
    GoodEnd (formatPre cfg ts name level msg args).buf := by
  unfold formatPre
  exact renderFields_goodEnd cfg _ hs _ _ (set_goodEnd cfg _ _ _ _ hs)

/-- Does the byte sequence end with exactly one trailing line break? -/
def endsOneNl (s : GoStr) : Bool :=
  s.getLast? == some '\n' && !(s.dropLast.getLast? == some '\n')

/-- Appending a single newline to a `GoodEnd` buffer ends it with exactly one
line break. -/
theorem endsOneNl_append (b : GoStr) (hb : GoodEnd b) :
    endsOneNl (b ++ ['\n']) = true := by
  unfold endsOneNl
  rw [getLast?_append_right b (by simp), List.dropLast_concat]
  have h2 : (b.getLast? == some '\n') = false := by
    rw [beq_eq_false_iff_ne]
    exact hb.2
  simp [h2]

/-- A list ending in `a` is its `dropLast` followed by `a`. -/
theorem eq_dropLast_concat : ∀ (l : GoStr) (a : Char),
    l.getLast? = some a → l = l.dropLast ++ [a]
  | [], a, h => by simp at h
  | [x], a, h => by
    simp at h
    simp [h]
  | x :: y :: t, a, h => by
    rw [List.getLast?_cons_cons] at h
    have ih := eq_dropLast_concat (y :: t) a h
    calc x :: y :: t = x :: ((y :: t).dropLast ++ [a]) := by rw [← ih]
      _ = (x :: y :: t).dropLast ++ [a] := by simp [List.dropLast]

/-- How the context block of `Format` terminates the record: a context ending
in a newline leaves the ANSI reset after the final line break, any other
context (and the no-context path) ends the record with exactly one line
break. -/
theorem trailing_block (b ctx color : GoStr) (hb : GoodEnd b) :
    (ctx.getLast? = some '\n' →
      ('\n' :: ansiReset) <:+
        (if ctx ≠ [] then
          b ++ '\n' :: color ++ ctx ++ ansiReset ++
            (if ctx.getLast? ≠ some '\n' then ['\n'] else [])
        else b ++ ['\n'])) ∧
    (ctx.getLast? ≠ some '\n' →
      endsOneNl
        (if ctx ≠ [] then
          b ++ '\n' :: color ++ ctx ++ ansiReset ++
            (if ctx.getLast? ≠ some '\n' then ['\n'] else [])
        else b ++ ['\n']) = true) := by
  constructor
  · intro h
    have hne : ctx ≠ [] := by
      intro he
      rw [he] at h
      simp at h
    rw [if_pos hne, if_neg (by simp [h]), List.append_nil]
    refine ⟨b ++ '\n' :: color ++ ctx.dropLast, ?_⟩
    rw [eq_dropLast_concat ctx '\n' h]
    simp [List.append_assoc]
  · intro h
    by_cases hne : ctx = []
    · rw [if_neg (by simp [hne])]
      exact endsOneNl_append b hb
    · rw [if_pos hne, if_pos h]
      have hsh : b ++ '\n' :: color ++ ctx ++ ansiReset ++ ['\n'] =
          ((b ++ '\n' :: (color ++ ctx)) ++ ansiReset) ++ ['\n'] := by
        simp [List.append_assoc]
      rw [hsh]
      exact endsOneNl_append _ (goodEnd_append _ ansiReset_goodEnd)

/-- How a whole record terminates, as a function of the resolved context. -/
theorem formatBody_trailing (cfg : Config) (ts name : GoStr) (level : Int)
    (msg : GoStr) (args : List GoVal) (hs : GoodEnd cfg.separator) :
    ((getLevelContext cfg level).1.getLast? = some '\n' →
      ('\n' :: ansiReset) <:+ formatBody cfg ts name level msg args) ∧
    ((getLevelContext cfg level).1.getLast? ≠ some '\n' →
      endsOneNl (formatBody cfg ts name level msg args) = true) :=
  trailing_block (formatPre cfg ts name level msg args).buf
    (getLevelContext cfg level).1 (getLevelContext cfg level).2
    (formatPre_goodEnd cfg ts name level msg args hs)

/-! ### Closed forms for the stack walks -/

/-- Concatenate context blocks, each terminated by a newline. -/
def joinNl (l : List GoStr) : GoStr := (l.map (fun c => c ++ ['\n'])).flatten

/-- The warn walk takes exactly the first frame at index at least 4. -/
theorem warnLoop_eq (wc : Frame → GoStr) : ∀ (tr : List Frame) (i : Nat),
    warnLoop wc i tr = ((tr.drop (4 - i)).head?).elim [] wc
  | [], i => by simp [warnLoop]
  | f :: fs, i => by
    unfold warnLoop
    by_cases hi : i < 4
    · rw [if_pos hi, warnLoop_eq wc fs (i + 1)]
      have h4 : 4 - i = (4 - (i + 1)) + 1 := by omega
      rw [h4, List.drop_succ_cons]
    · rw [if_neg hi]
      have h0 : 4 - i = 0 := by omega
      rw [h0]
      simp

/-- The error walk keeps every non-empty context from index at least 3 on,
each terminated by a newline. -/
theorem errLoop_eq (ec : Frame → GoStr) : ∀ (tr : List Frame) (i : Nat),
    errLoop ec i tr = joinNl (((tr.drop (3 - i)).map ec).filter (fun c => !c.isEmpty))
  | [], i => by simp [errLoop, joinNl]
  | f :: fs, i => by
    unfold errLoop
    by_cases hi : i < 3
    · rw [if_pos hi, errLoop_eq ec fs (i + 1)]
      have h3 : 3 - i = (3 - (i + 1)) + 1 := by omega
      rw [h3, List.drop_succ_cons]
    · rw [if_neg hi]
      have h0 : 3 - i = 0 := by omega
      have h0' : 3 - (i + 1) = 0 := by omega
      rw [h0, errLoop_eq ec fs (i + 1), h0']
      simp only [List.drop_zero, List.map_cons]
      by_cases hc : ec f = []
      · rw [if_pos hc, List.filter_cons, if_neg (by simp [hc])]
      · rw [if_neg hc, List.filter_cons, if_pos (by simp [List.isEmpty_iff, hc])]
        simp [joinNl]

/-! ### Validation lemmas -/

/-- A reserved string key makes the validation step fatal. -/
theorem validateStep_str_reserved (i : Nat) (s : GoStr)
    (next : Except Halt (List Nat)) (h : reservedKeys.contains s = true) :
    validateStep i (.str s) next = .error (.fatalKey s) := by
  have h' : s ∈ reservedKeys := by simpa using h
  simp [validateStep, h']

/-- A non-reserved string key whose JSON quoting is trivial passes the
validation step. -/
theorem validateStep_str_plain (i : Nat) (s : GoStr)
    (next : Except Halt (List Nat)) (h1 : reservedKeys.contains s = false)
    (h2 : jsonQuote s = '"' :: s ++ ['"']) :
    validateStep i (.str s) next = next := by
  have h' : s ∉ reservedKeys := by simpa using h1
  simp [validateStep, h', h2]

/-- A non-reserved string key whose JSON quoting is not trivial panics. -/
theorem validateStep_str_complex (i : Nat) (s : GoStr)
    (next : Except Halt (List Nat)) (h1 : reservedKeys.contains s = false)
    (h2 : jsonQuote s ≠ '"' :: s ++ ['"']) :
    validateStep i (.str s) next = .error (.complexKey s) := by
  have h' : s ∉ reservedKeys := by simpa using h1
  simp only [validateStep]
  rw [if_neg (by simpa using h'), if_neg h2]

/-- A non-string key only records its index as a diagnostic. -/
theorem validateStep_nonstr (i : Nat) (a : GoVal)
    (next : Except Halt (List Nat)) (h : ∀ s, a ≠ .str s) :
    validateStep i a next = next.map (fun ds => i :: ds) := by
  cases a with
  | str s => exact absurd rfl (h s)
  | int n => rfl
  | err m stk => rfl
  | nil => rfl
  | other r => rfl

/-- Validation of a concatenation: once an even-length prefix validates
cleanly, the walk continues into the rest at the shifted index. -/
theorem validate_append : ∀ (pre : List GoVal) (i : Nat) (ds : List Nat),
    pre.length % 2 = 0 → validate i pre = .ok ds → ∀ rest : List GoVal,
      validate i (pre ++ rest) =
        (validate (i + pre.length) rest).map (fun es => ds ++ es)
  | [], i, ds, _, hok, rest => by
    simp only [validate] at hok
    cases hok
    simp only [List.nil_append, List.length_nil, Nat.add_zero]
    cases h : validate i rest <;> simp [Except.map]
  | [a], _, _, h2, _, _ => by simp at h2
  | a :: b :: pre', i, ds, h2, hok, rest => by
    have h2' : pre'.length % 2 = 0 := by
      simp [List.length_cons] at h2
      omega
    have hlen : i + (a :: b :: pre').length = (i + 2) + pre'.length := by
      simp [List.length_cons]
      omega
    rw [hlen]
    show validateStep i a (validate (i + 2) (pre' ++ rest)) = _
    have hok' : validateStep i a (validate (i + 2) pre') = .ok ds := hok
    by_cases hstr : ∃ s, a = .str s
    · obtain ⟨s, rfl⟩ := hstr
      cases hr : reservedKeys.contains s with
      | true => rw [validateStep_str_reserved i s _ hr] at hok'; cases hok'
      | false =>
        by_cases hq : jsonQuote s = '"' :: s ++ ['"']
        · rw [validateStep_str_plain i s _ hr hq] at hok'
          rw [validateStep_str_plain i s _ hr hq]
          exact validate_append pre' (i + 2) ds h2' hok' rest
        · rw [validateStep_str_complex i s _ hr hq] at hok'; cases hok'
    · have hns : ∀ s, a ≠ .str s := fun s he => hstr ⟨s, he⟩
      rw [validateStep_nonstr i a _ hns] at hok'
      rw [validateStep_nonstr i a _ hns]
      cases hv : validate (i + 2) pre' with
      | error e => rw [hv] at hok'; simp [Except.map] at hok'
      | ok ds' =>
        rw [hv] at hok'
        simp [Except.map] at hok'
        rw [validate_append pre' (i + 2) ds' h2' hv rest]
        cases hrest : validate (i + 2 + pre'.length) rest <;>
          simp [Except.map, ← hok']

/-- With an odd-length argument list, the unmatched trailing key contributes
nothing to the render order. -/
theorem renderOrder_dropLast : ∀ (args : List GoVal) (i : Nat),
    args.length % 2 = 1 → renderOrder i args = renderOrder i args.dropLast
  | [], _, h => by simp at h
  | [a], i, _ => by simp [renderOrder]
  | a :: b :: rest, i, h => by
    have h' : rest.length % 2 = 1 := by
      simp [List.length_cons] at h
      omega
    cases rest with
    | nil => simp at h'
    | cons c rest' =>
      have ih := renderOrder_dropLast (c :: rest') (i + 2) h'
      have hd : (a :: b :: c :: rest').dropLast = a :: b :: (c :: rest').dropLast := by
        simp [List.dropLast]
      rw [hd]
      simp only [renderOrder]
      rw [ih]

/-! ### The JSON quoting round-trip -/

/-- Every escape sequence is at least two characters long. -/
theorem escChar_length (c : Char) : 2 ≤ (escChar c).length := by
  unfold escChar
  split
  · simp
  · split
    · simp
    · split
      · simp
      · split
        · simp
        · split <;> simp

/-- Encoding a rune yields at least one character. -/
theorem encRune_length (c : Char) : 1 ≤ (encRune c).length := by
  unfold encRune
  split
  · exact Nat.le_trans (by omega) (escChar_length c)
  · simp

/-- The encoded body is at least as long as the source string. -/
theorem flatten_enc_length : ∀ s : GoStr, s.length ≤ ((s.map encRune).flatten).length
  | [] => by simp
  | c :: t => by
    simp only [List.map_cons, List.flatten_cons, List.length_append, List.length_cons]
    have h1 := encRune_length c
    have h2 := flatten_enc_length t
    omega

/-- The encoded body reproduces the source string exactly when no rune needs
escaping. -/
theorem flatten_enc_eq_iff : ∀ s : GoStr,
    (s.map encRune).flatten = s ↔ ∀ c ∈ s, needsEscape c = false
  | [] => by simp
  | c :: t => by
    simp only [List.map_cons, List.flatten_cons]
    cases h : needsEscape c with
    | false =>
      have he : encRune c = [c] := by simp [encRune, h]
      rw [he]
      simp only [List.cons_append, List.nil_append, List.cons.injEq, true_and,
        List.mem_cons, forall_eq_or_imp]
      rw [flatten_enc_eq_iff t]
      simp [h]
    | true =>
      constructor
      · intro he
        exfalso
        have hlen := congrArg List.length he
        simp only [List.length_append, List.length_cons] at hlen
        have h1 := escChar_length c
        have h2 := flatten_enc_length t
        have he2 : encRune c = escChar c := by simp [encRune, h]
        rw [he2] at hlen
        omega
      · intro hall
        exact absurd (hall c (by simp)) (by simp [h])

/-- A key round-trips through JSON quoting unchanged exactly when none of its
runes needs escaping. -/
theorem jsonQuote_trivial_iff (s : GoStr) :
    jsonQuote s = '"' :: s ++ ['"'] ↔ ∀ c ∈ s, needsEscape c = false := by
  unfold jsonQuote
  rw [← flatten_enc_eq_iff s]
  constructor
  · intro h
    have h2 := List.cons.inj h
    exact List.append_cancel_right h2.2
  · intro h
    rw [h]

/-! ### Concrete instances used by witnesses and counterexamples -/

/-- A concrete theme with one-character color codes. -/
def wTheme : ColorScheme :=
  ⟨gs "K", gs "V", gs "M", gs "S", gs "D", gs "I", gs "W", gs "E"⟩

/-- A concrete render configuration: pretty mode off, 80-column budget, the
source's default two-space indent and one-space separator, a six-frame stack
whose frames format as `w<i>` (warn path) and `e<i>` (error path). -/
def wcfg : Config where
  isPretty := false
  maxCol := 80
  indent := gs "  "
  separator := gs " "
  theme := wTheme
  trace := [0, 1, 2, 3, 4, 5]
  warnCtx := fun f => gs ("w" ++ toString f)
  errCtx := fun f => gs ("e" ++ toString f)

/-- A concrete style resolver: `blue` and `red` resolve, everything else does
not. -/
def wcc : GoStr → GoStr := fun s =>
  if s = gs "blue" then gs "B" else if s = gs "red" then gs "R" else []

/-! ### Claims -/

/-- C1, counterexample: a valid empty (hence even-length, collision-free)
argument list rendered at the error level with a non-empty callsite context
yields a record whose final byte is the `m` of the trailing ANSI reset
sequence, not a line break — the error-path context ends with a newline and
the reset is written after it, so the claim's universal trailing-line-break
property fails. -/
theorem c1_counterexample :
    (format wcfg (gs "01:02") (gs "app") LevelError (gs "x") []).isOk = true ∧
    (outOf (format wcfg (gs "01:02") (gs "app") LevelError (gs "x") [])).getLast? =
      some 'm' ∧
    some 'm' ≠ (some '\n' : Option Char) :=
  ⟨by decide, by decide, by decide⟩

/-- C1, amended: for every valid even-length argument list with no
reserved-key collisions rendering succeeds, and the record ends with exactly
one trailing line break whenever the resolved callsite context does not end
with a newline (in particular for debug/info, for the empty context, and for
warn contexts without a trailing newline); when the context does end with a
newline — always the case for a non-empty error/fatal context — the ANSI
reset sequence follows the final line break, so the record ends with the
reset escape instead. -/
theorem c1_amended (cfg : Config) (ts name : GoStr) (level : Int) (msg : GoStr)
    (args : List GoVal) (diags : List Nat)
    (hval : validate 0 args = .ok diags) (_heven : args.length % 2 = 0)
    (hsep : GoodEnd cfg.separator) :
    format cfg ts name level msg args =
      .ok diags (formatBody cfg ts name level msg args) ∧
    ((getLevelContext cfg level).1.getLast? = some '\n' →
      ('\n' :: ansiReset) <:+ formatBody cfg ts name level msg args) ∧
    ((getLevelContext cfg level).1.getLast? ≠ some '\n' →
      endsOneNl (formatBody cfg ts name level msg args) = true) := by
  refine ⟨?_, (formatBody_trailing cfg ts name level msg args hsep).1,
    (formatBody_trailing cfg ts name level msg args hsep).2⟩
  unfold format
  rw [hval]

/-- C1, witness: the amended theorem applied to a concrete two-field debug
record. -/
theorem c1_witness :
    format wcfg (gs "01:02") (gs "app") LevelDebug (gs "hi")
        [GoVal.str (gs "a"), GoVal.int 1] =
      .ok [] (formatBody wcfg (gs "01:02") (gs "app") LevelDebug (gs "hi")
        [GoVal.str (gs "a"), GoVal.int 1]) ∧
    ((getLevelContext wcfg LevelDebug).1.getLast? = some '\n' →
      ('\n' :: ansiReset) <:+ formatBody wcfg (gs "01:02") (gs "app") LevelDebug
        (gs "hi") [GoVal.str (gs "a"), GoVal.int 1]) ∧
    ((getLevelContext wcfg LevelDebug).1.getLast? ≠ some '\n' →
      endsOneNl (formatBody wcfg (gs "01:02") (gs "app") LevelDebug (gs "hi")
        [GoVal.str (gs "a"), GoVal.int 1]) = true) :=
  c1_amended wcfg (gs "01:02") (gs "app") LevelDebug (gs "hi")
    [GoVal.str (gs "a"), GoVal.int 1] [] rfl (by decide)
    ⟨by decide, by decide⟩

/-- C2, counterexample: an odd-length argument list renders with the imbalance
sentinel appearing zero times, not exactly once — the unmatched trailing key
is skipped when the render order is built, so the sentinel field of the
canonical encoding is never rendered. -/
theorem c2_counterexample :
    countSub (outOf (format wcfg (gs "01:02") (gs "app") LevelDebug (gs "hi")
        [GoVal.str (gs "a"), GoVal.int 1, GoVal.str (gs "b")])) imbalancedKey = 0 ∧
    countSub (outOf (format wcfg (gs "01:02") (gs "app") LevelDebug (gs "hi")
        [GoVal.str (gs "a"), GoVal.int 1, GoVal.str (gs "b")])) imbalancedKey ≠ 1 :=
  ⟨by decide, by decide⟩

/-- C2, amended: for every odd-length argument list the unmatched trailing key
is skipped when the render order is built — the order equals that of the list
without its last element — so no field derived from its position (and in
particular no imbalance sentinel) is rendered by this formatter. -/
theorem c2_amended (args : List GoVal) (i : Nat) (hodd : args.length % 2 = 1) :
    renderOrder i args = renderOrder i args.dropLast :=
  renderOrder_dropLast args i hodd

/-- C2, witness: the amended theorem applied to a one-element argument list. -/
theorem c2_witness :
    renderOrder 0 [GoVal.int 7] = renderOrder 0 ([GoVal.int 7] : List GoVal).dropLast :=
  c2_amended [GoVal.int 7] 0 (by decide)

/-- C3, counterexample: an argument list whose even-indexed key `t` is
reserved nevertheless does not end in the fatal usage error, because an
earlier even-indexed key fails the quoting round-trip and the validation loop
panics there first. -/
theorem c3_counterexample :
    reservedKeys.contains (gs "t") = true ∧
    format wcfg (gs "01:02") (gs "app") LevelDebug (gs "hi")
        [GoVal.str (gs "x\""), GoVal.int 1, GoVal.str (gs "t"), GoVal.int 2] =
      .halted (.complexKey (gs "x\"")) :=
  ⟨by decide, by decide⟩

/-- C3, amended: when every even-indexed key before the reserved one validates
without halting, a reserved string key at an even index makes `Format` end in
the fatal usage error, and rendering never proceeds past the validation loop
(the outcome carries no rendered output). -/
theorem c3_amended (cfg : Config) (ts name : GoStr) (level : Int) (msg : GoStr)
    (pre suf : List GoVal) (s : GoStr) (ds : List Nat)
    (h2 : pre.length % 2 = 0) (hok : validate 0 pre = .ok ds)
    (hres : reservedKeys.contains s = true) :
    format cfg ts name level msg (pre ++ GoVal.str s :: suf) =
      .halted (.fatalKey s) := by
  unfold format
  rw [validate_append pre 0 ds h2 hok (GoVal.str s :: suf)]
  have hv : validate (0 + pre.length) (GoVal.str s :: suf) = .error (.fatalKey s) := by
    cases suf with
    | nil =>
      show validateStep _ (GoVal.str s) _ = _
      rw [validateStep_str_reserved _ s _ hres]
    | cons b suf' =>
      show validateStep _ (GoVal.str s) _ = _
      rw [validateStep_str_reserved _ s _ hres]
  rw [hv]
  rfl

/-- C3, witness: the amended theorem applied to a single reserved key `t`. -/
theorem c3_witness :
    format wcfg (gs "01:02") (gs "app") LevelDebug (gs "hi")
        ([] ++ GoVal.str (gs "t") :: []) = .halted (.fatalKey (gs "t")) :=
  c3_amended wcfg (gs "01:02") (gs "app") LevelDebug (gs "hi") [] []
    (gs "t") [] (by decide) rfl (by decide)

/-- C4: every `offset` call first trims the value of surrounding newlines and
spaces (second conjunct: the untrimmed and trimmed values render
identically), and decomposes into a wrapping decision followed by the write
phase (first conjunct): a line break plus the fixed indent is emitted before
the key exactly when pretty mode is on with a non-empty key, or when the
entry cursor plus key length plus one plus trimmed value length reaches the
column budget — the comparison reads the cursor as it was before anything is
written, and the wrapped intermediate state has its cursor at exactly the
indent's length. -/
theorem c4_offset_wrap (cfg : Config) (st : St) (c k v : GoStr) :
    (offset cfg st c k v =
      offsetWrite cfg
        (if wrapCond cfg st k (trimNlSp v) then
          { buf := st.buf ++ '\n' :: cfg.indent, col := golen cfg.indent }
        else st)
        c k (trimNlSp v)) ∧
    offset cfg st c k v = offset cfg st c k (trimNlSp v) := by
  refine ⟨offset_eq cfg st c k v, ?_⟩
  rw [offset_eq cfg st c k v, offset_eq cfg st c k (trimNlSp v), trimNlSp_idem]

/-- C5: for the theme specification `*=blue,key=red` with a resolver on which
`blue` and `red` resolve to non-empty codes (and `blue` not to the reset
sequence, while the absent style resolves to nothing), the parsed theme's
`key` slot is `red`'s resolved style and all other seven slots are `blue`'s
resolved style: the non-reset wildcard seeds every slot, a slot whose style
resolves to a non-empty code wins over the wildcard, and a slot resolving to
nothing falls back to the wildcard. -/
theorem c5_wildcard (cc : GoStr → GoStr)
    (hblue : cc (gs "blue") ≠ []) (_hbr : cc (gs "blue") ≠ ansiReset)
    (hred : cc (gs "red") ≠ []) (hnil : cc [] = []) :
    parseTheme cc (gs "*=blue,key=red") =
      { key := cc (gs "red")
        value := cc (gs "blue")
        misc := cc (gs "blue")
        source := cc (gs "blue")
        debug := cc (gs "blue")
        info := cc (gs "blue")
        warn := cc (gs "blue")
        error := cc (gs "blue") } := by
  have hm : parseKVList (gs "*=blue,key=red") ',' =
      [(gs "key", gs "red"), (gs "*", gs "blue")] := by decide
  simp only [parseTheme]
  rw [hm]
  have h1 : mget [(gs "key", gs "red"), (gs "*", gs "blue")] (gs "*") = gs "blue" := by
    decide
  have h2 : mget [(gs "key", gs "red"), (gs "*", gs "blue")] (gs "key") = gs "red" := by
    decide
  have h3 : mget [(gs "key", gs "red"), (gs "*", gs "blue")] (gs "value") = [] := by
    decide
  have h4 : mget [(gs "key", gs "red"), (gs "*", gs "blue")] (gs "misc") = [] := by
    decide
  have h5 : mget [(gs "key", gs "red"), (gs "*", gs "blue")] (gs "source") = [] := by
    decide
  have h6 : mget [(gs "key", gs "red"), (gs "*", gs "blue")] (gs "DBG") = [] := by
    decide
  have h7 : mget [(gs "key", gs "red"), (gs "*", gs "blue")] (gs "WRN") = [] := by
    decide
  have h8 : mget [(gs "key", gs "red"), (gs "*", gs "blue")] (gs "INF") = [] := by
    decide
  have h9 : mget [(gs "key", gs "red"), (gs "*", gs "blue")] (gs "ERR") = [] := by
    decide
  rw [h1, h2, h3, h4, h5, h6, h7, h8, h9, hnil, if_neg hblue, if_neg hred,
    if_pos rfl]

/-- C5, witness: the wildcard-precedence theorem applied to the concrete
resolver `wcc`. -/
theorem c5_witness :
    parseTheme wcc (gs "*=blue,key=red") =
      { key := wcc (gs "red")
        value := wcc (gs "blue")
        misc := wcc (gs "blue")
        source := wcc (gs "blue")
        debug := wcc (gs "blue")
        info := wcc (gs "blue")
        warn := wcc (gs "blue")
        error := wcc (gs "blue") } :=
  c5_wildcard wcc (by decide) (by decide) (by decide) (by decide)

/-- C6: `getLevelContext` is level-asymmetric exactly as claimed — for warn it
skips the first four stack frames, formats only the first remaining frame and
stops (empty context when no such frame exists: the head of the dropped list
is absent); for error and fatal it skips the first three frames, walks every
remaining frame, skips frames whose formatted context is empty without
stopping, and concatenates the non-empty contexts, each followed by a
newline. -/
theorem c6_level_asymmetry (cfg : Config) :
    getLevelContext cfg LevelWarn =
      (((cfg.trace.drop 4).head?).elim [] cfg.warnCtx, cfg.theme.warn) ∧
    getLevelContext cfg LevelError =
      (joinNl (((cfg.trace.drop 3).map cfg.errCtx).filter (fun c => !c.isEmpty)),
        cfg.theme.error) ∧
    getLevelContext cfg LevelFatal =
      (joinNl (((cfg.trace.drop 3).map cfg.errCtx).filter (fun c => !c.isEmpty)),
        cfg.theme.error) := by
  refine ⟨?_, ?_, ?_⟩
  · unfold getLevelContext
    rw [if_neg (by decide), if_neg (by decide), if_pos rfl,
      warnLoop_eq cfg.warnCtx cfg.trace 0]
  · unfold getLevelContext
    rw [if_neg (by decide), if_neg (by decide), if_neg (by decide),
      errLoop_eq cfg.errCtx cfg.trace 0]
  · unfold getLevelContext
    rw [if_neg (by decide), if_neg (by decide), if_neg (by decide),
      errLoop_eq cfg.errCtx cfg.trace 0]

/-- C7, counterexample: a non-string key at index 0 is diagnosed non-fatally
(the index is reported), but the pair is not skipped for ordering purposes —
the render order receives the placeholder key for index 0 instead of being
empty. -/
theorem c7_counterexample :
    validate 0 [GoVal.int 5, GoVal.str (gs "v")] = .ok [0] ∧
    renderOrder 0 [GoVal.int 5, GoVal.str (gs "v")] = [gs "BAD_KEY_AT_INDEX_0"] ∧
    renderOrder 0 [GoVal.int 5, GoVal.str (gs "v")] ≠ [] :=
  ⟨rfl, by decide, by decide⟩

/-- C7, amended: a non-string key at an even index is reported as a non-fatal
internal diagnostic identifying the offending positional index, but the pair
is not skipped for ordering purposes: the placeholder key derived from that
index takes its place in the user-field render order. -/
theorem c7_bad_key (i : Nat) (v w : GoVal) (rest : List GoVal)
    (hns : ∀ s, v ≠ .str s) :
    validate i (v :: w :: rest) =
      (validate (i + 2) rest).map (fun ds => i :: ds) ∧
    renderOrder i (v :: w :: rest) = badKeyAtIndex i :: renderOrder (i + 2) rest := by
  constructor
  · show validateStep i v (validate (i + 2) rest) = _
    exact validateStep_nonstr i v _ hns
  · cases v with
    | str s => exact absurd rfl (hns s)
    | int n => rfl
    | err m stk => rfl
    | nil => rfl
    | other r => rfl

/-- C7, witness: the amended theorem applied to an integer key at index 0. -/
theorem c7_witness :
    validate 0 [GoVal.int 5, GoVal.str (gs "v")] =
      (validate 2 []).map (fun ds => 0 :: ds) ∧
    renderOrder 0 [GoVal.int 5, GoVal.str (gs "v")] =
      badKeyAtIndex 0 :: renderOrder 2 [] :=
  c7_bad_key 0 (GoVal.int 5) (GoVal.str (gs "v")) []
    (fun _ h => GoVal.noConfusion h)

/-- C8: a non-reserved string key makes the render panic exactly when the key
does not round-trip through JSON string quoting unchanged, which happens
exactly when some rune of the key requires escaping (second conjunct); keys
all of whose runes need no escaping pass the validation step unharmed (first
conjunct). -/
theorem c8_complex_key :
    (∀ (i : Nat) (s : GoStr) (w : GoVal) (rest : List GoVal),
      reservedKeys.contains s = false →
      validate i (GoVal.str s :: w :: rest) =
        (if ∀ c ∈ s, needsEscape c = false then validate (i + 2) rest
         else .error (.complexKey s))) ∧
    (∀ s : GoStr, jsonQuote s = '"' :: s ++ ['"'] ↔ ∀ c ∈ s, needsEscape c = false) := by
  refine ⟨?_, jsonQuote_trivial_iff⟩
  intro i s w rest hr
  show validateStep i (GoVal.str s) (validate (i + 2) rest) = _
  by_cases hq : jsonQuote s = '"' :: s ++ ['"']
  · rw [validateStep_str_plain i s _ hr hq,
      if_pos ((jsonQuote_trivial_iff s).mp hq)]
  · rw [validateStep_str_complex i s _ hr hq,
      if_neg (fun hall => hq ((jsonQuote_trivial_iff s).mpr hall))]

/-- C8, witness: the characterisation applied to the plain key `ab`. -/
theorem c8_witness :
    validate 0 [GoVal.str (gs "ab"), GoVal.int 0] =
      (if ∀ c ∈ gs "ab", needsEscape c = false then validate 2 []
       else .error (.complexKey (gs "ab"))) :=
  c8_complex_key.1 0 (gs "ab") (GoVal.int 0) [] (by decide)

/-- C9: a field whose value is an error-like object bypasses the generic value
writer — `set` renders it through the same column-aware `offset` routine as
the error's message, a newline, and its captured stack trace, in the theme's
error color (first conjunct); and the example error record contains, in
order, the timestamp, the `ERR` abbreviation, the logger name, the message,
the error field's message, its stack block, and the trailing call-context
block (second conjunct). -/
theorem c9_error_value :
    (∀ (cfg : Config) (st : St) (key m stk color : GoStr),
      set cfg st key (.err m stk) color =
        offset cfg st cfg.theme.error key (m ++ '\n' :: stk)) ∧
    orderedSub
      (outOf (format wcfg (gs "01:02") (gs "app") LevelError (gs "db failed")
        [GoVal.str (gs "err"), GoVal.err (gs "conn refused") (gs "at main.go:9")]))
      [gs "01:02", gs "ERR", gs "app", gs "db failed", gs "conn refused",
        gs "at main.go:9", gs "\nEe3\ne4\ne5\n"] = true :=
  ⟨fun cfg st key m stk color => rfl, by decide⟩

/-- C10, counterexample: the cursor counts every character that goes through
`writeString`, including line breaks embedded in a written value, so after
writing the value `a\nb` (no escape sequences involved anywhere: the buffer
is exactly ` a\nb`) the cursor is 4 while only one character follows the last
line break of the buffer. -/
theorem c10_counterexample :
    (offset wcfg { buf := [], col := 0 } [] [] (gs "a\nb")).buf = gs " a\nb" ∧
    (offset wcfg { buf := [], col := 0 } [] [] (gs "a\nb")).col = 4 ∧
    charsSinceLastNl (gs " a\nb") = 1 ∧ (4 : Nat) ≠ 1 :=
  ⟨by decide, by decide, by decide, by decide⟩

/-- C10, amended: ANSI escape sequences bypass the column tracker, so the
cursor after a field write depends only on the wrap decision, the indent,
separator, key and trimmed value lengths — the closed form mentions no color
slot, so wrapping decisions are independent of the configured theme colors;
but the cursor counts every `writeString` character including line breaks
embedded in values, so it equals the character count since the last line
break only when the written value contains none. -/
theorem c10_cursor (cfg : Config) (st : St) (c k v : GoStr) :
    (offset cfg st c k v).col =
      (if wrapCond cfg st k (trimNlSp v) then golen cfg.indent else st.col) +
        golen cfg.separator +
        (if k = [] then 0 else golen k + golen assignmentChar) +
        golen (trimNlSp v) := by
  rw [offset_eq]
  by_cases hw : wrapCond cfg st k (trimNlSp v)
  · rw [if_pos hw, if_pos hw]
    unfold offsetWrite writeKey writeString rawWrite
    by_cases hk : k = [] <;> by_cases hc : c = [] <;> simp [hk, hc] <;> omega
  · rw [if_neg hw, if_neg hw]
    unfold offsetWrite writeKey writeString rawWrite
    by_cases hk : k = [] <;> by_cases hc : c = [] <;> simp [hk, hc] <;> omega

end Logxi
